import Mathlib

set_option maxHeartbeats 1000000

/-!
Verification development for the phigaro batch CLI
(source file: phigaro/cli/batch.py).

Part 1 models the scratch-directory cleanup `clean_fold`, which walks the
directory 'proc' bottom-up (os.walk with topdown=False), keeps a single
`is_empty` flag that turns false forever once a directory with a file is
visited, removes the subdirectories of every directory visited while the
flag is still true, and finally removes 'proc' itself when the flag is
still true at the end.

The filesystem is modelled as a finite tree of directories; each directory
has a name, the names of the plain files it directly contains, and its
subdirectories.  os.walk(…, topdown=False) is modelled as the post-order
traversal of that tree, yielding for each directory its path (list of
segments from the walk root), the names of its subdirectories, and the
names of its files.  Removing a directory during the walk only affects
directories already yielded, so the traversal list can be computed from the
initial tree.
-/

mutual
inductive Dir where
  | mk (n : String) (fs : List String) (subs : DirList)
inductive DirList where
  | nil
  | cons (d : Dir) (ds : DirList)
end

def dName : Dir → String
  | .mk n _ _ => n

def dirNames : DirList → List String
  | .nil => []
  | .cons d ds => dName d :: dirNames ds

/-- One element yielded by os.walk: the directory's path, the names of its
subdirectories, and the names of its files. -/
structure Entry where
  path : List String
  dirs : List String
  files : List String
deriving DecidableEq

mutual
/-- os.walk(root, topdown=False): post-order traversal.  `p` is the path of
the parent directory; the walk of a directory first yields the walks of its
subdirectories in order, then the directory itself. -/
def walk (p : List String) : Dir → List Entry
  | .mk n fs subs => walkList (p ++ [n]) subs ++ [⟨p ++ [n], dirNames subs, fs⟩]
def walkList (p : List String) : DirList → List Entry
  | .nil => []
  | .cons d ds => walk p d ++ walkList p ds
end

mutual
/-- The directory tree contains no file anywhere (transitively). -/
def noFilesB : Dir → Bool
  | .mk _ fs subs => fs.isEmpty && noFilesListB subs
def noFilesListB : DirList → Bool
  | .nil => true
  | .cons d ds => noFilesB d && noFilesListB ds
end

mutual
/-- Well-formed directory tree: sibling directory names are distinct
(as on a real filesystem). -/
def wfDir : Dir → Prop
  | .mk _ _ subs => wfList subs
def wfList : DirList → Prop
  | .nil => True
  | .cons d ds => dName d ∉ dirNames ds ∧ wfDir d ∧ wfList ds
end

/-- The paths os.rmdir would be called on while visiting entry `e`:
the subdirectories of `e`, addressed as os.path.join(root, name). -/
def childPaths (e : Entry) : List (List String) :=
  e.dirs.map (fun n => e.path ++ [n])

/-- One iteration of the loop body of clean_fold: the inner
`for name in files` loop sets is_empty to False when the entry has a file;
the subsequent `if is_empty` removes the entry's subdirectories. -/
def cleanStep (st : Bool × List (List String)) (e : Entry) : Bool × List (List String) :=
  let b := st.1 && e.files.isEmpty
  if b then (b, st.2 ++ childPaths e) else (b, st.2)

/-- clean_fold (batch.py lines 43-53), run on a tree whose root is the
'proc' directory.  Returns the final is_empty flag (which decides the final
os.rmdir('proc')) and the list of directory paths removed during the walk,
in removal order. -/
def clean_fold (t : Dir) : Bool × List (List String) :=
  (walk [] t).foldl cleanStep (true, [])

/-- clean_fold removes the directory 'proc' itself exactly when the final
is_empty flag holds. -/
def procRemoved (t : Dir) : Bool := (clean_fold t).1

/-- The subdirectory paths removed by clean_fold during the walk. -/
def removedDirs (t : Dir) : List (List String) := (clean_fold t).2

/-- Path `q` is `p` or lies below `p`. -/
def under (p q : List String) : Prop := ∃ r, q = p ++ r

/-- Example tree: proc/D contains a file and an empty subtree E/F. -/
def exTree : Dir :=
  .mk "proc" []
    (.cons (.mk "D" ["file.txt"]
      (.cons (.mk "E" []
        (.cons (.mk "F" [] .nil) .nil)) .nil)) .nil)

/-- The removals performed while folding cleanStep over a walk segment,
starting from flag `b`: at each entry the flag is conjoined with "this entry
has no files", and the entry's subdirectories are removed when the updated
flag still holds. -/
def newRem : List Entry → Bool → List (List String)
  | [], _ => []
  | e :: es, b =>
    (if (b && e.files.isEmpty) then childPaths e else []) ++
      newRem es (b && e.files.isEmpty)

/-!
Part 2 models the substitution parser `parse_substitute_output`, the task
factory `create_task`, and the control flow of `main` from the config-file
existence check to the final cleanup, as functions of the parsed
command-line arguments.  Python strings are modelled as lists of
characters; the outcome of run_tasks_chain (whose module is not under
src/) is an input of the model.
-/

/-- Python strings, modelled as lists of characters. -/
abbrev PyStr := List Char

/-- Python str.split(sep) for a one-character separator and no maxsplit:
splits on every occurrence of the separator ("".split(c) is ['']). -/
def splitOnChar (c : Char) : PyStr → List PyStr
  | [] => [[]]
  | x :: xs =>
    let r := splitOnChar c xs
    if x = c then [] :: r
    else
      match r with
      | [] => [[x]]
      | y :: ys => (x :: y) :: ys

/-- The Python exception classes raised by the modelled code paths:
ValueError from tuple unpacking, TypeError from os.path.dirname on a
non-path value, and the task ExecutionError of the runner. -/
inductive PyErr where
  | valueError
  | typeError
  | executionError
deriving DecidableEq

/-- Modelled from the spec: DummyTask (phigaro/batch/task/dummy.py, not
under src/) wraps a user-supplied precomputed file path; its constructor
DummyTask(output, task_name) merely stores both strings, its output()
accessor returns the stored path, and its run() and clean() are no-ops. -/
structure DummyTask where
  output : PyStr
  task_name : PyStr
deriving DecidableEq

instance : Inhabited DummyTask := ⟨⟨[], []⟩⟩

/-- Reading a Python dict (`m[k]`, `k in m`), the dict being represented
as its insertion-ordered list of key-value pairs. -/
def dictLookup : List (PyStr × DummyTask) → PyStr → Option DummyTask
  | [], _ => none
  | kv :: rest, k => if kv.1 = k then some kv.2 else dictLookup rest k

/-- Python dict assignment `m[k] = v`: replaces the value of an existing
key in place, otherwise appends the new binding. -/
def dictInsert : List (PyStr × DummyTask) → PyStr → DummyTask → List (PyStr × DummyTask)
  | [], k, v => [(k, v)]
  | kv :: rest, k, v =>
    if kv.1 = k then (kv.1, v) :: rest else kv :: dictInsert rest k v

/-- The keys of the mapping, in order. -/
def dictKeys (m : List (PyStr × DummyTask)) : List PyStr := m.map Prod.fst

/-- One loop iteration of parse_substitute_output (batch.py line 27):
`task_name, output = sub.split(":")` succeeds exactly when the split has
exactly two parts, i.e. the entry contains exactly one ':'; any other
number of parts makes the tuple unpacking raise ValueError. -/
def parseEntry (sub : PyStr) : Except PyErr (PyStr × PyStr) :=
  match splitOnChar ':' sub with
  | [task_name, out] => .ok (task_name, out)
  | _ => .error .valueError

/-- The loop of parse_substitute_output over the remaining entries, with
the accumulated mapping `res` (batch.py lines 25-29). -/
def parseGo : List PyStr → List (PyStr × DummyTask) →
    Except PyErr (List (PyStr × DummyTask))
  | [], res => .ok res
  | s :: rest, res =>
    match parseEntry s with
    | .error e => .error e
    | .ok (tn, out) => parseGo rest (dictInsert res tn ⟨out, tn⟩)

/-- parse_substitute_output (batch.py lines 23-29): `subs = subs or []`,
then the loop building the task_name → DummyTask mapping. -/
def parse_substitute_output (subs : Option (List PyStr)) :
    Except PyErr (List (PyStr × DummyTask)) :=
  parseGo (subs.getD []) []

/-- A pipeline task as the driver observes it: one of the real task
instances (identified by its task_name) or a substituted DummyTask. -/
inductive PTask where
  | real (task_name : PyStr)
  | dummy (d : DummyTask)
deriving DecidableEq

/-- The task_name of a task (real tasks carry it; a DummyTask stores the
task_name it substitutes). -/
def PTask.name : PTask → PyStr
  | .real n => n
  | .dummy d => d.task_name

/-- The diagnostic printed when a substitution applies (batch.py lines
36-38): 'Substituting output for <task_name>: <substituted path>'. -/
def substMsg (tn out : PyStr) : PyStr :=
  "Substituting output for ".toList ++ tn ++ ": ".toList ++ out

/-- create_task (batch.py lines 32-41): the real task has already been
constructed (it is the `task` argument); if its task_name is a key of the
substitution mapping, the diagnostic message is printed and the mapped
DummyTask is returned instead; otherwise the constructed task is returned
and nothing is printed. -/
def create_task (subs : List (PyStr × DummyTask)) (task : PTask) :
    PTask × Option PyStr :=
  match dictLookup subs task.name with
  | some d => (.dummy d, some (substMsg task.name d.output))
  | none => (task, none)

/-- The value of args.output: argparse yields the default False when
-o is absent and a string when it is present; None is representable
because line 123 of batch.py guards against it. -/
inductive PyVal where
  | none
  | bool (b : Bool)
  | str (s : PyStr)
deriving DecidableEq

/-- Python truthiness of such a value (`not args.output`). -/
def truthy : PyVal → Bool
  | .none => false
  | .bool b => b
  | .str s => !s.isEmpty

/-- Python str.lower() for the ASCII format names used here. -/
def pyLower (s : PyStr) : PyStr := s.map Char.toLower

/-- The observable steps main performs, in execution order. -/
inductive Act where
  | printed (msg : PyStr)
  | loadedConfig
  | configuredFlags (no_html gff bed : Bool)
  | preparedOutputDir
  | contextInit
  | taskCreated (t : PTask)
  | ranChain
  | wroteTsv
  | wroteStdout
  | cleanedTask (n : PyStr)
  | ranCleanFold
deriving DecidableEq

/-- How the process leaves main. -/
inductive RunResult where
  | exited (code : Nat)
  | uncaught (e : PyErr)
  | finished
deriving DecidableEq

/-- batch.py line 94. -/
def configMissingMsg : PyStr :=
  "Please, create config file using phigaro-setup script".toList

/-- batch.py line 99. -/
def outputRequiredMsg : PyStr :=
  "Error! Argument -o/--output is required or change the type of the output to stdout.".toList

def stdoutExt : PyStr := "stdout".toList
def htmlExt : PyStr := "html".toList
def gffExt : PyStr := "gff".toList
def bedExt : PyStr := "bed".toList
def tsvExt : PyStr := "tsv".toList

/-- Modelled from the spec: the task_name identifiers of the four real
pipeline stages (the task classes live in phigaro/batch/task/, not under
src/); the -S help text names the prodigal and hmmer stages.  The claims
do not depend on the exact strings. -/
def preprocessName : PyStr := "preprocess".toList
def prodigalName : PyStr := "prodigal".toList
def hmmerName : PyStr := "hmmer".toList
def runPhigaroName : PyStr := "run_phigaro".toList

/-- The command-line inputs the modelled part of main depends on, plus
the one environment fact it branches on (config-file existence). -/
structure Args where
  configExists : Bool
  extension : List PyStr
  output : PyVal
  substitute_output : Option (List PyStr)
  no_cleanup : Bool
deriving DecidableEq

/-- One create_task call in main together with its observable actions:
the real task instance is constructed first, then the substitution
diagnostic (if any) is printed. -/
def stageStep (m : List (PyStr × DummyTask)) (rt : PTask) : List Act × PTask :=
  match create_task m rt with
  | (t, some msg) => ([.taskCreated rt, .printed msg], t)
  | (t, none) => ([.taskCreated rt], t)

/-- The tasks list main assembles (batch.py lines 136-157). -/
def pipelineTasks (m : List (PyStr × DummyTask)) : List PTask :=
  [(stageStep m (.real preprocessName)).2,
   (stageStep m (.real prodigalName)).2,
   (stageStep m (.real hmmerName)).2,
   (stageStep m (.real runPhigaroName)).2]

/-- The tsv/stdout mirroring block (batch.py lines 160-171). -/
def mirrorActions (exts : List PyStr) : List Act :=
  if exts.contains tsvExt || exts.contains stdoutExt then
    (if exts.contains tsvExt then [Act.wroteTsv] else []) ++
      (if exts.contains stdoutExt then [Act.wroteStdout] else [])
  else []

/-- The cleanup block (batch.py lines 173-176): unless --no-cleanup was
given, clean() is called on every task in the list, then clean_fold. -/
def cleanupActions (tasks : List PTask) (no_cleanup : Bool) : List Act :=
  if no_cleanup then []
  else tasks.map (fun t => Act.cleanedTask t.name) ++ [Act.ranCleanFold]

/-- The actions of the four create_task calls (batch.py lines 136-157),
in order. -/
def stagesLog (m : List (PyStr × DummyTask)) : List Act :=
  (stageStep m (.real preprocessName)).1 ++ (stageStep m (.real prodigalName)).1 ++
    (stageStep m (.real hmmerName)).1 ++ (stageStep m (.real runPhigaroName)).1

/-- main from line 134 (parse_substitute_output) to the end, given the
actions `pre` already performed.  The runner raising propagates out of
main unchanged, since main installs no exception handler; the tsv/stdout
mirroring and the cleanup block run only when the chain returned
normally. -/
def afterOutput (a : Args) (chainResult : Except PyErr PyStr) (exts : List PyStr)
    (pre : List Act) : List Act × RunResult :=
  match parse_substitute_output a.substitute_output with
  | .error e => (pre, .uncaught e)
  | .ok m =>
    match chainResult with
    | .error e => (pre ++ stagesLog m ++ [Act.ranChain], .uncaught e)
    | .ok _ =>
      (pre ++ stagesLog m ++ [Act.ranChain] ++ mirrorActions exts ++
        cleanupActions (pipelineTasks m) a.no_cleanup, .finished)

/-- main (batch.py lines 102-176) once both early-exit checks have
passed: the config load, the extension-derived config flags (no_html,
gff, bed; lines 108-114), the output-directory block of lines 123-126
(os.path.dirname raises TypeError unless args.output is a string — the
`is not None` guard only excludes None, not the default False),
Context.initialize, and the rest. -/
def mainAfterChecks (a : Args) (chainResult : Except PyErr PyStr) :
    List Act × RunResult :=
  let exts := a.extension.map pyLower
  let pre := [Act.loadedConfig,
    Act.configuredFlags (!exts.contains htmlExt)
      (exts.contains gffExt) (exts.contains bedExt)]
  match a.output with
  | .bool _ => (pre, .uncaught .typeError)
  | .none => afterOutput a chainResult exts (pre ++ [Act.contextInit])
  | .str _ =>
    afterOutput a chainResult exts
      (pre ++ [Act.preparedOutputDir, Act.contextInit])

/-- main (batch.py lines 92-176) from the config-file existence check
onward: the existence check and exit (lines 92-95), the lowercasing of
the extension list and the output-required check and exit (lines 97-100),
then the rest of main. -/
def mainSteps (a : Args) (chainResult : Except PyErr PyStr) :
    List Act × RunResult :=
  if !a.configExists then
    ([.printed configMissingMsg], .exited 1)
  else
    if !truthy a.output && !((a.extension.map pyLower) == [stdoutExt]) then
      ([.printed outputRequiredMsg], .exited 1)
    else
      mainAfterChecks a chainResult

/-- The actions belonging to the cleanup block. -/
def isCleanupAction : Act → Bool
  | .cleanedTask _ => true
  | .ranCleanFold => true
  | _ => false

/-- Follows the spec's words (section 3, "last one wins"): the DummyTask
of the last entry in input order whose task_name is `tn`, used to compare
the code's mapping against the spec's description. -/
def lastWinsSpec : List PyStr → PyStr → Option DummyTask
  | [], _ => none
  | s :: rest, tn =>
    match lastWinsSpec rest tn, parseEntry s with
    | some d, _ => some d
    | none, .ok (a, b) => if a = tn then some ⟨b, a⟩ else none
    | none, .error _ => none

/-- The actions performed before parse_substitute_output when the early
checks pass: config load, flag configuration, the output-directory block
(for a string output), Context.initialize. -/
def preActions (a : Args) : List Act :=
  [Act.loadedConfig,
    Act.configuredFlags (!(a.extension.map pyLower).contains htmlExt)
      ((a.extension.map pyLower).contains gffExt)
      ((a.extension.map pyLower).contains bedExt)] ++
    (match a.output with
     | .str _ => [Act.preparedOutputDir]
     | _ => []) ++ [Act.contextInit]

def exArgsC7 : Args :=
  { configExists := false, extension := ["html".toList], output := .bool false,
    substitute_output := none, no_cleanup := false }

def exArgsC8 : Args :=
  { configExists := true, extension := ["html".toList], output := .bool false,
    substitute_output := none, no_cleanup := false }

def exArgsC9 : Args :=
  { configExists := true, extension := ["stdout".toList], output := .bool false,
    substitute_output := none, no_cleanup := false }

def exArgsC5 : Args :=
  { configExists := true, extension := ["tsv".toList], output := .str "out".toList,
    substitute_output := none, no_cleanup := false }

theorem foldl_cleanStep_fst (l : List Entry) : ∀ (b : Bool) (rem : List (List String)),
    (l.foldl cleanStep (b, rem)).1 = (b && l.all fun e => e.files.isEmpty) := by
  induction l with
  | nil => intro b rem; simp
  | cons e es ih =>
    intro b rem
    cases hb : b <;> cases hf : e.files.isEmpty <;>
      simp [List.foldl_cons, cleanStep, hb, hf, ih, List.all_cons]

theorem foldl_cleanStep_snd (l : List Entry) : ∀ (b : Bool) (rem : List (List String)),
    (l.foldl cleanStep (b, rem)).2 = rem ++ newRem l b := by
  induction l with
  | nil => intro b rem; simp [newRem]
  | cons e es ih =>
    intro b rem
    cases h : (b && e.files.isEmpty) with
    | true => simp [List.foldl_cons, cleanStep, h, ih, newRem, List.append_assoc]
    | false => simp [List.foldl_cons, cleanStep, h, ih, newRem]

theorem newRem_false (l : List Entry) : newRem l false = [] := by
  induction l with
  | nil => rfl
  | cons e es ih => simp [newRem, ih]

theorem newRem_append (l₁ l₂ : List Entry) : ∀ b : Bool,
    newRem (l₁ ++ l₂) b =
      newRem l₁ b ++ newRem l₂ (b && l₁.all fun e => e.files.isEmpty) := by
  induction l₁ with
  | nil => intro b; simp [newRem]
  | cons e es ih =>
    intro b
    simp [newRem, ih, List.append_assoc, List.all_cons, Bool.and_assoc]

theorem mem_newRem (q : List String) : ∀ (l : List Entry) (b : Bool), q ∈ newRem l b →
    ∃ e, e ∈ l ∧ ∃ n, n ∈ e.dirs ∧ q = e.path ++ [n] := by
  intro l
  induction l with
  | nil => intro b h; simp [newRem] at h
  | cons e es ih =>
    intro b h
    rw [newRem] at h
    rcases List.mem_append.mp h with h1 | h2
    · by_cases hc : (b && e.files.isEmpty) = true
      · rw [if_pos hc] at h1
        obtain ⟨n, hn, hq⟩ := List.mem_map.mp h1
        exact ⟨e, List.mem_cons_self e es, n, hn, hq.symm⟩
      · rw [if_neg hc] at h1
        exact absurd h1 (List.not_mem_nil q)
    · obtain ⟨e', he', hn⟩ := ih _ h2
      exact ⟨e', List.mem_cons_of_mem e he', hn⟩

mutual
theorem walk_path_shape (p : List String) (d : Dir) :
    ∀ e ∈ walk p d, ∃ u, e.path = p ++ [dName d] ++ u := by
  cases d with
  | mk n fs subs =>
    intro e he
    rw [walk] at he
    rcases List.mem_append.mp he with h1 | h2
    · obtain ⟨n₁, u, _, hp⟩ := walkList_path_shape (p ++ [n]) subs e h1
      exact ⟨[n₁] ++ u, by simp [dName, hp]⟩
    · have : e = ⟨p ++ [n], dirNames subs, fs⟩ := by simpa using h2
      exact ⟨[], by simp [this, dName]⟩
theorem walkList_path_shape (p : List String) (ds : DirList) :
    ∀ e ∈ walkList p ds, ∃ n₁ u, n₁ ∈ dirNames ds ∧ e.path = p ++ [n₁] ++ u := by
  cases ds with
  | nil => intro e he; rw [walkList] at he; exact absurd he (List.not_mem_nil e)
  | cons d rest =>
    intro e he
    rw [walkList] at he
    rcases List.mem_append.mp he with h1 | h2
    · obtain ⟨u, hp⟩ := walk_path_shape p d e h1
      exact ⟨dName d, u, by simp [dirNames], hp⟩
    · obtain ⟨n₁, u, hn, hp⟩ := walkList_path_shape p rest e h2
      exact ⟨n₁, u, by simp [dirNames, hn], hp⟩
end

mutual
theorem walk_all_noFiles (p : List String) (d : Dir) :
    ((walk p d).all fun e => e.files.isEmpty) = noFilesB d := by
  cases d with
  | mk n fs subs =>
    rw [walk, List.all_append, walkList_all_noFiles, noFilesB]
    simp [Bool.and_comm]
theorem walkList_all_noFiles (p : List String) (ds : DirList) :
    ((walkList p ds).all fun e => e.files.isEmpty) = noFilesListB ds := by
  cases ds with
  | nil => rw [walkList, noFilesListB]; rfl
  | cons d rest =>
    rw [walkList, List.all_append, walk_all_noFiles, walkList_all_noFiles, noFilesListB]
end

mutual
/-- Any directory removed while walking subtree `d` has no file anywhere
beneath it: every walk entry at or below a removed path has no files. -/
theorem goodWalk (p : List String) (d : Dir) (b : Bool) (q : List String) (e' : Entry)
    (hwf : wfDir d) (hq : q ∈ newRem (walk p d) b) (he : e' ∈ walk p d)
    (hu : under q e'.path) : e'.files = [] := by
  cases d with
  | mk n fs subs =>
    have hsubs : wfList subs := hwf
    rw [walk] at hq he
    rw [newRem_append] at hq
    rcases List.mem_append.mp hq with hq1 | hq2
    · rcases List.mem_append.mp he with he1 | he2
      · exact goodWalkList (p ++ [n]) subs b q e' hsubs hq1 he1 hu
      · have he'' : e' = ⟨p ++ [n], dirNames subs, fs⟩ := by simpa using he2
        obtain ⟨e, heW, n₂, hn₂, hq_eq⟩ := mem_newRem q _ b hq1
        obtain ⟨n₁, u, _, hpath⟩ := walkList_path_shape (p ++ [n]) subs e heW
        obtain ⟨r, hr⟩ := hu
        rw [he''] at hr
        have hr' : p ++ [n] = q ++ r := hr
        have hlen : (p ++ [n]).length = q.length + r.length := by
          rw [hr']; simp
        have hlen2 : q.length = p.length + u.length + 3 := by
          rw [hq_eq, hpath]; simp [List.length_append]; omega
        exfalso
        simp [List.length_append] at hlen
        omega
    · rw [newRem] at hq2
      by_cases hc : ((b && (walkList (p ++ [n]) subs).all fun e => e.files.isEmpty)
          && fs.isEmpty) = true
      · have hc' := hc
        simp only [Bool.and_eq_true] at hc'
        have hallW : ((walkList (p ++ [n]) subs).all fun e => e.files.isEmpty) = true :=
          hc'.1.2
        have hfs : fs.isEmpty = true := hc'.2
        rcases List.mem_append.mp he with he1 | he2
        · have := List.all_eq_true.mp hallW e' he1
          simpa [List.isEmpty_iff] using this
        · have he'' : e' = ⟨p ++ [n], dirNames subs, fs⟩ := by simpa using he2
          rw [he'']
          simpa [List.isEmpty_iff] using hfs
      · rw [if_neg hc, newRem] at hq2
        simp at hq2
theorem goodWalkList (p : List String) (ds : DirList) (b : Bool) (q : List String) (e' : Entry)
    (hwf : wfList ds) (hq : q ∈ newRem (walkList p ds) b) (he : e' ∈ walkList p ds)
    (hu : under q e'.path) : e'.files = [] := by
  cases ds with
  | nil => rw [walkList] at he; exact absurd he (List.not_mem_nil e')
  | cons d rest =>
    obtain ⟨hnd, hwd, hwrest⟩ := hwf
    rw [walkList] at hq he
    rw [newRem_append] at hq
    rcases List.mem_append.mp hq with hq1 | hq2
    · rcases List.mem_append.mp he with he1 | he2
      · exact goodWalk p d b q e' hwd hq1 he1 hu
      · obtain ⟨e, heW, n₂, hn₂, hq_eq⟩ := mem_newRem q _ b hq1
        obtain ⟨u, hpath⟩ := walk_path_shape p d e heW
        obtain ⟨n₁, v, hn₁, hpath'⟩ := walkList_path_shape p rest e' he2
        obtain ⟨r, hr⟩ := hu
        have heq : p ++ [n₁] ++ v = (p ++ [dName d] ++ (u ++ [n₂])) ++ r := by
          rw [← hpath', hr, hq_eq, hpath]
          simp [List.append_assoc]
        have hcons : n₁ :: v = dName d :: (u ++ [n₂] ++ r) := by
          have h2 : p ++ (n₁ :: v) = p ++ (dName d :: (u ++ [n₂] ++ r)) := by
            simpa [List.append_assoc] using heq
          exact List.append_cancel_left h2
        have : n₁ = dName d := (List.cons.injEq _ _ _ _ ▸ hcons).1
        rw [this] at hn₁
        exact absurd hn₁ hnd
    · cases hb₂ : (b && (walk p d).all fun e => e.files.isEmpty) with
      | false => rw [hb₂, newRem_false] at hq2; exact absurd hq2 (List.not_mem_nil q)
      | true =>
        have htmp := hb₂
        simp only [Bool.and_eq_true] at htmp
        have hall : ((walk p d).all fun e => e.files.isEmpty) = true := htmp.2
        rcases List.mem_append.mp he with he1 | he2
        · have := List.all_eq_true.mp hall e' he1
          simpa [List.isEmpty_iff] using this
        · rw [hb₂] at hq2
          exact goodWalkList p rest true q e' hwrest hq2 he2 hu
end

theorem procRemoved_eq_noFilesB (t : Dir) : procRemoved t = noFilesB t := by
  rw [procRemoved, clean_fold, foldl_cleanStep_fst, Bool.true_and, walk_all_noFiles]

theorem removedDirs_eq (t : Dir) : removedDirs t = newRem (walk [] t) true := by
  rw [removedDirs, clean_fold, foldl_cleanStep_snd, List.nil_append]

/-- C1 (counterexample): the claim "a directory containing a leftover file
anywhere is preserved entirely (no subdirectory under it is deleted)" fails
on the tree proc/D/file.txt, proc/D/E/F: clean_fold removes the
subdirectory proc/D/E/F even though proc/D directly contains file.txt. -/
theorem clean_fold_claim_counterexample :
    (["proc", "D", "E", "F"] ∈ removedDirs exTree) ∧
    under ["proc", "D"] ["proc", "D", "E", "F"] ∧
    ∃ e, e ∈ walk [] exTree ∧ e.path = ["proc", "D"] ∧ e.files ≠ [] := by
  refine ⟨by decide, ⟨["E", "F"], rfl⟩,
    ⟨⟨["proc", "D"], ["E"], ["file.txt"]⟩, by decide, rfl, by decide⟩⟩

/-- C1 (amended): clean_fold removes the scratch directory 'proc' if and
only if it contains zero files transitively, and every directory it removes
has no file anywhere beneath it in the pre-cleanup tree (so no directory
that contains a file, directly or transitively, is ever deleted); however a
fileless subdirectory lying strictly below a directory that contains a file
may still be deleted, because the bottom-up walk prunes its parent's
subtree before the file is encountered. -/
theorem clean_fold_amended (t : Dir) (h : wfDir t) :
    procRemoved t = noFilesB t ∧
    ∀ q ∈ removedDirs t, ∀ e ∈ walk [] t, under q e.path → e.files = [] := by
  refine ⟨procRemoved_eq_noFilesB t, ?_⟩
  intro q hq e he hu
  rw [removedDirs_eq] at hq
  exact goodWalk [] t true q e h hq he hu

/-- Witness for C1's amended theorem at the concrete tree exTree. -/
theorem clean_fold_amended_witness :
    wfDir exTree ∧ procRemoved exTree = noFilesB exTree := by
  have hwf : wfDir exTree := by
    simp [exTree, wfDir, wfList, dirNames, dName]
  exact ⟨hwf, (clean_fold_amended exTree hwf).1⟩

theorem splitOnChar_no_sep (c : Char) (s : PyStr) (h : c ∉ s) :
    splitOnChar c s = [s] := by
  induction s with
  | nil => rfl
  | cons x xs ih =>
    have hx : ¬(x = c) := fun he => h (he ▸ List.mem_cons_self x xs)
    have hxs : c ∉ xs := fun hm => h (List.mem_cons_of_mem x hm)
    rw [splitOnChar]
    simp [hx, ih hxs]

theorem splitOnChar_cons_sep (c : Char) (a b : PyStr) (h : c ∉ a) :
    splitOnChar c (a ++ c :: b) = a :: splitOnChar c b := by
  induction a with
  | nil => simp [splitOnChar]
  | cons x a' ih =>
    have hx : ¬(x = c) := fun he => h (he ▸ List.mem_cons_self x a')
    have ha' : c ∉ a' := fun hm => h (List.mem_cons_of_mem x hm)
    rw [List.cons_append, splitOnChar]
    simp [hx, ih ha']

theorem splitOnChar_length (c : Char) (s : PyStr) :
    (splitOnChar c s).length = s.count c + 1 := by
  induction s with
  | nil => simp [splitOnChar]
  | cons x xs ih =>
    rw [splitOnChar]
    by_cases hx : x = c
    · subst hx
      simp [List.count_cons, ih]
    · rcases hr : splitOnChar c xs with _ | ⟨y, ys⟩
      · rw [hr] at ih; simp at ih
      · rw [hr] at ih
        simp only [List.length_cons] at ih
        simp [hx, hr, List.count_cons, Ne.symm hx]
        omega

theorem parseEntry_no_colon (s : PyStr) (h : (':' : Char) ∉ s) :
    parseEntry s = .error .valueError := by
  rw [parseEntry, splitOnChar_no_sep _ _ h]

theorem parseEntry_one_colon (tn out : PyStr) (h₁ : (':' : Char) ∉ tn)
    (h₂ : (':' : Char) ∉ out) :
    parseEntry (tn ++ ':' :: out) = .ok (tn, out) := by
  rw [parseEntry, splitOnChar_cons_sep _ _ _ h₁, splitOnChar_no_sep _ _ h₂]

theorem parseEntry_count_ne_one (s : PyStr) (h : s.count ':' ≠ 1) :
    parseEntry s = .error .valueError := by
  rw [parseEntry]
  rcases hr : splitOnChar ':' s with _ | ⟨a, _ | ⟨b, _ | ⟨d, l⟩⟩⟩
  · rfl
  · rfl
  · exfalso
    have hl := splitOnChar_length ':' s
    rw [hr] at hl
    simp at hl
    omega
  · rfl

theorem parseEntry_error_val (s : PyStr) (e : PyErr) (h : parseEntry s = .error e) :
    e = .valueError := by
  rw [parseEntry] at h
  split at h
  · exact absurd h (by simp)
  · injection h with h'
    exact h'.symm

theorem parseGo_mem_error (l : List PyStr) : ∀ (res : List (PyStr × DummyTask)) (s : PyStr),
    s ∈ l → parseEntry s = .error .valueError →
    parseGo l res = .error .valueError := by
  induction l with
  | nil => intro res s hs _; exact absurd hs (List.not_mem_nil s)
  | cons x rest ih =>
    intro res s hs herr
    rw [parseGo]
    rcases List.mem_cons.mp hs with rfl | hs'
    · rw [herr]
    · cases hpe : parseEntry x with
      | error e =>
        have he : e = .valueError := parseEntry_error_val x e hpe
        subst he
        rfl
      | ok p =>
        obtain ⟨tn, out⟩ := p
        exact ih _ s hs' herr

theorem mainSteps_no_config (a : Args) (c : Except PyErr PyStr)
    (h : a.configExists = false) :
    mainSteps a c = ([.printed configMissingMsg], .exited 1) := by
  rw [mainSteps, h]
  rfl

theorem mainSteps_exit_output (a : Args) (c : Except PyErr PyStr)
    (hc : a.configExists = true)
    (hcond : (!truthy a.output && !((a.extension.map pyLower) == [stdoutExt])) = true) :
    mainSteps a c = ([.printed outputRequiredMsg], .exited 1) := by
  rw [mainSteps, hc]
  simp only [Bool.not_true, Bool.false_eq_true, if_false, hcond, if_true]

theorem mainSteps_checks_pass (a : Args) (c : Except PyErr PyStr)
    (hc : a.configExists = true)
    (hcond : (!truthy a.output && !((a.extension.map pyLower) == [stdoutExt])) = false) :
    mainSteps a c = mainAfterChecks a c := by
  rw [mainSteps, hc]
  simp only [Bool.not_true, Bool.false_eq_true, if_false, hcond]

theorem mainAfterChecks_bool (a : Args) (c : Except PyErr PyStr) (b : Bool)
    (ho : a.output = .bool b) :
    mainAfterChecks a c =
      ([Act.loadedConfig,
        Act.configuredFlags (!(a.extension.map pyLower).contains htmlExt)
          ((a.extension.map pyLower).contains gffExt)
          ((a.extension.map pyLower).contains bedExt)], .uncaught .typeError) := by
  rw [mainAfterChecks, ho]

theorem mainAfterChecks_not_bool (a : Args) (c : Except PyErr PyStr)
    (ho : ∀ b, a.output ≠ .bool b) :
    mainAfterChecks a c =
      afterOutput a c (a.extension.map pyLower) (preActions a) := by
  cases hv : a.output with
  | bool b => exact absurd hv (ho b)
  | none => rw [mainAfterChecks, hv, preActions, hv]; rfl
  | str s => rw [mainAfterChecks, hv, preActions, hv]; rfl

theorem afterOutput_parse_error (a : Args) (c : Except PyErr PyStr)
    (exts : List PyStr) (pre : List Act) (e : PyErr)
    (h : parse_substitute_output a.substitute_output = .error e) :
    afterOutput a c exts pre = (pre, .uncaught e) := by
  rw [afterOutput, h]

/-- C2: if any substitution entry contains no ':' separator, parsing the
whole substitution list fails (with the ValueError of the failed tuple
unpacking, the error the spec's taxonomy files under ConfigurationError),
no mapping is produced, and main never creates any task for such an
argument list: whatever else the arguments are, no taskCreated action is
ever performed. -/
theorem parse_missing_colon_fails (subs : List PyStr) (s : PyStr)
    (hs : s ∈ subs) (hnc : (':' : Char) ∉ s) :
    parse_substitute_output (some subs) = .error .valueError ∧
    ∀ (a : Args) (chain : Except PyErr PyStr), a.substitute_output = some subs →
      ∀ act ∈ (mainSteps a chain).1, ∀ t : PTask, act ≠ .taskCreated t := by
  have hperr : parse_substitute_output (some subs) = .error .valueError := by
    rw [parse_substitute_output]
    exact parseGo_mem_error subs [] s hs (parseEntry_no_colon s hnc)
  refine ⟨hperr, ?_⟩
  intro a chain hsub act hact t
  cases hcfg : a.configExists with
  | false =>
    rw [mainSteps_no_config a chain hcfg] at hact
    simp at hact
    simp [hact]
  | true =>
    cases hcond : (!truthy a.output && !((a.extension.map pyLower) == [stdoutExt])) with
    | true =>
      rw [mainSteps_exit_output a chain hcfg hcond] at hact
      simp at hact
      simp [hact]
    | false =>
      rw [mainSteps_checks_pass a chain hcfg hcond] at hact
      have hperr' : parse_substitute_output a.substitute_output = .error .valueError := by
        rw [hsub]; exact hperr
      cases ho : a.output with
      | bool b =>
        rw [mainAfterChecks_bool a chain b ho] at hact
        simp at hact
        rcases hact with h | h <;> simp [h]
      | none =>
        rw [mainAfterChecks_not_bool a chain (by rw [ho]; intro b h; cases h)] at hact
        rw [afterOutput_parse_error a chain _ _ _ hperr'] at hact
        rw [preActions, ho] at hact
        simp at hact
        rcases hact with h | h | h <;> simp [h]
      | str s' =>
        rw [mainAfterChecks_not_bool a chain (by rw [ho]; intro b h; cases h)] at hact
        rw [afterOutput_parse_error a chain _ _ _ hperr'] at hact
        rw [preActions, ho] at hact
        simp at hact
        rcases hact with h | h | h | h <;> simp [h]

/-- Witness for C2 at the concrete entry "hmmer" (no colon). -/
theorem parse_missing_colon_fails_witness :
    parse_substitute_output (some ["hmmer".toList]) = .error .valueError :=
  (parse_missing_colon_fails ["hmmer".toList] "hmmer".toList (by decide) (by decide)).1

/-- C3 (counterexample): the claim says the parser splits each entry on
the first ':' so that a path containing further ':' characters (here
"/tmp/a:b") becomes the substituted path; the code instead unpacks
split(":") into exactly two names, so this entry raises ValueError and
produces no mapping at all. -/
theorem parse_first_colon_counterexample :
    parse_substitute_output (some ["prodigal:/tmp/a:b".toList]) =
      .error .valueError := by
  rfl

/-- C3 (amended): the parser accepts exactly the entries containing
exactly one ':' — the text before it becomes the task name and the text
after it the path — and every entry with zero or with two or more ':'
characters raises ValueError instead of being split on the first colon.
Parsing is a pure function of the strings (the model performs no I/O and
no existence check). -/
theorem parse_split_amended (tn out : PyStr) (h₁ : (':' : Char) ∉ tn)
    (h₂ : (':' : Char) ∉ out) :
    parseEntry (tn ++ ':' :: out) = .ok (tn, out) ∧
    parse_substitute_output (some [tn ++ ':' :: out]) = .ok [(tn, ⟨out, tn⟩)] ∧
    ∀ s : PyStr, s.count ':' ≠ 1 → parseEntry s = .error .valueError := by
  refine ⟨parseEntry_one_colon tn out h₁ h₂, ?_, fun s hs => parseEntry_count_ne_one s hs⟩
  rw [parse_substitute_output]
  show parseGo [tn ++ ':' :: out] [] = _
  rw [parseGo]
  rw [parseEntry_one_colon tn out h₁ h₂]
  rfl

/-- Witness for C3's amended theorem at a concrete entry. -/
theorem parse_split_amended_witness :
    parseEntry ("prodigal".toList ++ ':' :: "/tmp/f".toList) =
      .ok ("prodigal".toList, "/tmp/f".toList) :=
  (parse_split_amended "prodigal".toList "/tmp/f".toList (by decide) (by decide)).1

theorem dictLookup_insert_self (m : List (PyStr × DummyTask)) (k : PyStr) (v : DummyTask) :
    dictLookup (dictInsert m k v) k = some v := by
  induction m with
  | nil =>
    show (if k = k then some v else dictLookup [] k) = some v
    rw [if_pos rfl]
  | cons kv rest ih =>
    by_cases h : kv.1 = k
    · rw [dictInsert, if_pos h, dictLookup, if_pos h]
    · rw [dictInsert, if_neg h, dictLookup, if_neg h]
      exact ih

theorem dictLookup_insert_ne (m : List (PyStr × DummyTask)) (k k' : PyStr) (v : DummyTask)
    (h : k ≠ k') :
    dictLookup (dictInsert m k v) k' = dictLookup m k' := by
  induction m with
  | nil =>
    show (if k = k' then some v else dictLookup [] k') = dictLookup [] k'
    rw [if_neg h]
  | cons kv rest ih =>
    by_cases h₁ : kv.1 = k
    · rw [dictInsert, if_pos h₁]
      show (if kv.1 = k' then some v else dictLookup rest k') = dictLookup (kv :: rest) k'
      rw [dictLookup]
      by_cases h₂ : kv.1 = k'
      · exact absurd (h₁.symm.trans h₂) h
      · rw [if_neg h₂, if_neg h₂]
    · rw [dictInsert, if_neg h₁, dictLookup, dictLookup]
      by_cases h₂ : kv.1 = k'
      · rw [if_pos h₂, if_pos h₂]
      · rw [if_neg h₂, if_neg h₂, ih]

theorem dictKeys_insert_mem (m : List (PyStr × DummyTask)) (k : PyStr) (v : DummyTask)
    (x : PyStr) :
    x ∈ dictKeys (dictInsert m k v) ↔ (x ∈ dictKeys m ∨ x = k) := by
  induction m with
  | nil => simp [dictInsert, dictKeys]
  | cons kv rest ih =>
    by_cases h : kv.1 = k
    · rw [dictInsert, if_pos h]
      subst h
      simp [dictKeys]
      tauto
    · rw [dictInsert, if_neg h]
      simp [dictKeys] at ih ⊢
      rw [ih]
      tauto

theorem dictKeys_insert_nodup (m : List (PyStr × DummyTask)) (k : PyStr) (v : DummyTask)
    (h : (dictKeys m).Nodup) : (dictKeys (dictInsert m k v)).Nodup := by
  induction m with
  | nil => simp [dictInsert, dictKeys]
  | cons kv rest ih =>
    rw [dictKeys, List.map_cons, List.nodup_cons] at h
    obtain ⟨h1, h2⟩ := h
    by_cases hk : kv.1 = k
    · rw [dictInsert, if_pos hk]
      rw [dictKeys, List.map_cons, List.nodup_cons]
      exact ⟨h1, h2⟩
    · rw [dictInsert, if_neg hk]
      rw [dictKeys, List.map_cons, List.nodup_cons]
      refine ⟨?_, ih h2⟩
      intro hmem
      rcases (dictKeys_insert_mem rest k v kv.1).mp hmem with hm | hm
      · exact h1 hm
      · exact hk hm

theorem parseGo_nodup (l : List PyStr) : ∀ (res : List (PyStr × DummyTask)) m,
    parseGo l res = .ok m → (dictKeys res).Nodup → (dictKeys m).Nodup := by
  induction l with
  | nil =>
    intro res m h hn
    rw [parseGo] at h
    injection h with h
    rw [← h]
    exact hn
  | cons x rest ih =>
    intro res m h hn
    rw [parseGo] at h
    revert h
    cases hpe : parseEntry x with
    | error e => intro h; simp at h
    | ok p =>
      intro h
      obtain ⟨tn, out⟩ := p
      exact ih _ m h (dictKeys_insert_nodup res tn ⟨out, tn⟩ hn)

theorem parseGo_lookup (l : List PyStr) : ∀ (res : List (PyStr × DummyTask)) m (tn : PyStr),
    parseGo l res = .ok m →
    dictLookup m tn = (match lastWinsSpec l tn with
      | some d => some d
      | none => dictLookup res tn) := by
  induction l with
  | nil =>
    intro res m tn h
    rw [parseGo] at h
    injection h with h
    rw [← h, lastWinsSpec]
  | cons x rest ih =>
    intro res m tn h
    rw [parseGo] at h
    revert h
    cases hpe : parseEntry x with
    | error e => intro h; simp at h
    | ok p =>
      intro h
      obtain ⟨a, b⟩ := p
      have hih := ih (dictInsert res a ⟨b, a⟩) m tn h
      rw [lastWinsSpec, hpe]
      cases hlast : lastWinsSpec rest tn with
      | some d =>
        rw [hlast] at hih
        exact hih
      | none =>
        rw [hlast] at hih
        show dictLookup m tn =
          (match (if a = tn then some (DummyTask.mk b a) else none) with
            | some d => some d
            | none => dictLookup res tn)
        by_cases ha : a = tn
        · rw [if_pos ha]
          subst ha
          exact hih.trans (dictLookup_insert_self res a ⟨b, a⟩)
        · rw [if_neg ha]
          exact hih.trans (dictLookup_insert_ne res a tn ⟨b, a⟩ ha)

/-- C6: for every successfully parsed substitution list, the mapping
holds at most one DummyTask per task name (its key list has no
duplicates), and looking up any task name returns the DummyTask built
from the last entry in input order bearing that name (lastWinsSpec, a
second definition written from the spec's words for comparison). -/
theorem substitution_last_wins (subs : List PyStr) (m : List (PyStr × DummyTask))
    (h : parse_substitute_output (some subs) = .ok m) :
    (dictKeys m).Nodup ∧ ∀ tn : PyStr, dictLookup m tn = lastWinsSpec subs tn := by
  constructor
  · exact parseGo_nodup subs [] m h (by simp [dictKeys])
  · intro tn
    have hl := parseGo_lookup subs [] m tn h
    rw [hl]
    cases lastWinsSpec subs tn with
    | some d => rfl
    | none => rfl

/-- Witness for C6 at two entries sharing the task name "a". -/
theorem substitution_last_wins_witness :
    parse_substitute_output (some ["a:1".toList, "a:2".toList]) =
      .ok [("a".toList, ⟨"2".toList, "a".toList⟩)] ∧
    dictLookup [("a".toList, ⟨"2".toList, "a".toList⟩)] "a".toList =
      lastWinsSpec ["a:1".toList, "a:2".toList] "a".toList := by
  have hp : parse_substitute_output (some ["a:1".toList, "a:2".toList]) =
      .ok [("a".toList, ⟨"2".toList, "a".toList⟩)] := by rfl
  exact ⟨hp, (substitution_last_wins _ _ hp).2 "a".toList⟩

/-- C4: create_task receives the already-constructed real task; it
returns the DummyTask of the substitution mapping, printing the
diagnostic that names the task and the substituted path, exactly when
the task's task_name is a key of the mapping; otherwise it returns the
constructed task and prints nothing. -/
theorem create_task_substitution_spec (m : List (PyStr × DummyTask)) (t : PTask) :
    (∀ d, dictLookup m t.name = some d →
      create_task m t = (.dummy d, some (substMsg t.name d.output))) ∧
    (dictLookup m t.name = none → create_task m t = (t, none)) := by
  constructor
  · intro d hd; rw [create_task, hd]
  · intro hd; rw [create_task, hd]

/-- Witness for C4: a substituted stage and the printed message. -/
theorem create_task_substitution_spec_witness :
    create_task [("hmmer".toList, ⟨"h.out".toList, "hmmer".toList⟩)]
        (.real "hmmer".toList) =
      (.dummy ⟨"h.out".toList, "hmmer".toList⟩,
        some (substMsg "hmmer".toList "h.out".toList)) :=
  (create_task_substitution_spec _ _).1 _ (by decide)

/-- C7: when the configuration file does not exist main prints the
human-readable hint and exits with status 1 before loading any
configuration, parsing any substitution, or creating or executing any
task: the printed message is the only observable action. -/
theorem missing_config_exits_early (a : Args) (chain : Except PyErr PyStr)
    (h : a.configExists = false) :
    mainSteps a chain = ([.printed configMissingMsg], .exited 1) :=
  mainSteps_no_config a chain h

/-- Witness for C7. -/
theorem missing_config_exits_early_witness :
    mainSteps exArgsC7 (.ok []) = ([.printed configMissingMsg], .exited 1) :=
  missing_config_exits_early exArgsC7 (.ok []) rfl

/-- C8: with no -o value (argparse's default False) and a lowercased
extension list different from exactly ['stdout'], main prints the error
message and exits with status 1 before any task is created or executed:
the printed message is the only observable action. -/
theorem output_required_exits_early (a : Args) (chain : Except PyErr PyStr)
    (hc : a.configExists = true) (ho : a.output = .bool false)
    (he : a.extension.map pyLower ≠ [stdoutExt]) :
    mainSteps a chain = ([.printed outputRequiredMsg], .exited 1) := by
  apply mainSteps_exit_output a chain hc
  have hbe : (a.extension.map pyLower == [stdoutExt]) = false :=
    beq_eq_false_iff_ne.mpr he
  rw [ho, hbe]
  rfl

/-- Witness for C8. -/
theorem output_required_exits_early_witness :
    mainSteps exArgsC8 (.ok []) = ([.printed outputRequiredMsg], .exited 1) :=
  output_required_exits_early exArgsC8 (.ok []) rfl rfl (by decide)

/-- C9: with the default output False and an extension list lowercasing
to exactly ['stdout'], the output-required check passes, but main then
evaluates os.path.dirname on False — the `is not None` guard of line 123
does not exclude the boolean default — so the run dies with a TypeError
after the config is loaded and before Context.initialize, task creation
or execution. -/
theorem stdout_default_output_type_error (a : Args) (chain : Except PyErr PyStr)
    (hc : a.configExists = true) (ho : a.output = .bool false)
    (he : a.extension.map pyLower = [stdoutExt]) :
    mainSteps a chain =
      ([Act.loadedConfig, Act.configuredFlags true false false],
        .uncaught .typeError) := by
  have hcond : (!truthy a.output && !((a.extension.map pyLower) == [stdoutExt])) = false := by
    rw [he]
    simp
  rw [mainSteps_checks_pass a chain hc hcond, mainAfterChecks_bool a chain false ho, he]
  decide

/-- Witness for C9. -/
theorem stdout_default_output_type_error_witness :
    mainSteps exArgsC9 (.ok []) =
      ([Act.loadedConfig, Act.configuredFlags true false false],
        .uncaught .typeError) :=
  stdout_default_output_type_error exArgsC9 (.ok []) rfl rfl (by decide)

theorem afterOutput_congr (a₁ a₂ : Args) (chain : Except PyErr PyStr)
    (exts : List PyStr) (pre : List Act)
    (h4 : a₁.substitute_output = a₂.substitute_output)
    (h5 : a₁.no_cleanup = a₂.no_cleanup) :
    afterOutput a₁ chain exts pre = afterOutput a₂ chain exts pre := by
  rw [afterOutput, afterOutput, h4, h5]

theorem mainAfterChecks_congr (a₁ a₂ : Args) (chain : Except PyErr PyStr)
    (h2 : a₁.extension.map pyLower = a₂.extension.map pyLower)
    (h3 : a₁.output = a₂.output)
    (h4 : a₁.substitute_output = a₂.substitute_output)
    (h5 : a₁.no_cleanup = a₂.no_cleanup) :
    mainAfterChecks a₁ chain = mainAfterChecks a₂ chain := by
  rw [mainAfterChecks, mainAfterChecks, h2, h3]
  cases a₂.output with
  | bool b => rfl
  | none => exact afterOutput_congr a₁ a₂ chain _ _ h4 h5
  | str s => exact afterOutput_congr a₁ a₂ chain _ _ h4 h5

theorem mainSteps_ext_congr (a₁ a₂ : Args) (chain : Except PyErr PyStr)
    (h1 : a₁.configExists = a₂.configExists)
    (h2 : a₁.extension.map pyLower = a₂.extension.map pyLower)
    (h3 : a₁.output = a₂.output)
    (h4 : a₁.substitute_output = a₂.substitute_output)
    (h5 : a₁.no_cleanup = a₂.no_cleanup) :
    mainSteps a₁ chain = mainSteps a₂ chain := by
  rw [mainSteps, mainSteps, h1, h2, h3,
    mainAfterChecks_congr a₁ a₂ chain h2 h3 h4 h5]

/-- C10: main lowercases every extension entry once, at line 97, before
any use; two invocations whose extension lists agree after lowercasing
behave identically — same stdout-only output check, same html/gff/bed
flags, same tsv/stdout mirroring, same everything. -/
theorem extension_case_insensitive (c : Bool) (e₁ e₂ : List PyStr) (o : PyVal)
    (s : Option (List PyStr)) (nc : Bool) (chain : Except PyErr PyStr)
    (h : e₁.map pyLower = e₂.map pyLower) :
    mainSteps ⟨c, e₁, o, s, nc⟩ chain = mainSteps ⟨c, e₂, o, s, nc⟩ chain :=
  mainSteps_ext_congr ⟨c, e₁, o, s, nc⟩ ⟨c, e₂, o, s, nc⟩ chain rfl h rfl rfl rfl

/-- Witness for C10: 'HTML' and 'html' lead to the same run. -/
theorem extension_case_insensitive_witness :
    (["HTML".toList] : List PyStr).map pyLower = ["html".toList].map pyLower ∧
    mainSteps ⟨true, ["HTML".toList], .bool false, none, false⟩ (.ok []) =
      mainSteps ⟨true, ["html".toList], .bool false, none, false⟩ (.ok []) := by
  have h : (["HTML".toList] : List PyStr).map pyLower = ["html".toList].map pyLower := by
    decide
  exact ⟨h, extension_case_insensitive true ["HTML".toList] ["html".toList]
    (.bool false) none false (.ok []) h⟩

theorem stageStep_fst_clean (m : List (PyStr × DummyTask)) (rt : PTask) :
    ((stageStep m rt).1).filter isCleanupAction = [] := by
  rcases hct : create_task m rt with ⟨t, msg⟩
  cases msg with
  | none => rw [stageStep, hct]; rfl
  | some s => rw [stageStep, hct]; rfl

theorem stagesLog_clean (m : List (PyStr × DummyTask)) :
    (stagesLog m).filter isCleanupAction = [] := by
  rw [stagesLog]
  simp [List.filter_append, stageStep_fst_clean]

theorem mirrorActions_clean (exts : List PyStr) :
    (mirrorActions exts).filter isCleanupAction = [] := by
  rw [List.filter_eq_nil_iff]
  intro x hx
  rw [mirrorActions] at hx
  split at hx
  · rcases List.mem_append.mp hx with h' | h'
    · split at h'
      · have hx' : x = Act.wroteTsv := by simpa using h'
        rw [hx']
        simp [isCleanupAction]
      · simp at h'
    · split at h'
      · have hx' : x = Act.wroteStdout := by simpa using h'
        rw [hx']
        simp [isCleanupAction]
      · simp at h'
  · simp at hx

theorem preActions_clean (a : Args) :
    (preActions a).filter isCleanupAction = [] := by
  rw [preActions]
  cases a.output <;> simp [isCleanupAction]

theorem cleanupActions_filter (tasks : List PTask) (nc : Bool) :
    (cleanupActions tasks nc).filter isCleanupAction = cleanupActions tasks nc := by
  cases nc with
  | true => rfl
  | false =>
    rw [cleanupActions, if_neg (by simp)]
    apply List.filter_eq_self.mpr
    intro x hx
    rcases List.mem_append.mp hx with h | h
    · obtain ⟨t, _, rfl⟩ := List.mem_map.mp h
      rfl
    · have hx' : x = Act.ranCleanFold := by simpa using h
      rw [hx']
      rfl

theorem afterOutput_ok_error (a : Args) (exts : List PyStr) (pre : List Act)
    (m : List (PyStr × DummyTask)) (e : PyErr)
    (h : parse_substitute_output a.substitute_output = .ok m) :
    afterOutput a (.error e) exts pre =
      (pre ++ stagesLog m ++ [Act.ranChain], .uncaught e) := by
  rw [afterOutput, h]

theorem afterOutput_ok_ok (a : Args) (exts : List PyStr) (pre : List Act)
    (m : List (PyStr × DummyTask)) (v : PyStr)
    (h : parse_substitute_output a.substitute_output = .ok m) :
    afterOutput a (.ok v) exts pre =
      (pre ++ stagesLog m ++ [Act.ranChain] ++ mirrorActions exts ++
        cleanupActions (pipelineTasks m) a.no_cleanup, .finished) := by
  rw [afterOutput, h]

/-- C5: once a run reaches run_tasks_chain (config file present, a string
output, the output check passed, substitutions parsed), the cleanup
block — clean() on each of the four pipeline tasks in order, then
clean_fold — runs exactly when the chain returns normally and --no-cleanup
was not given: on a chain error the error propagates out of main uncaught,
and the log contains no cleanup action at all; on normal return the
cleanup actions of the log are exactly the cleanup block, placed at the
very end, which is the per-task clean calls followed by clean_fold when
cleanup is enabled, and empty when it is disabled. -/
theorem cleanup_exactly_on_success (a : Args) (chain : Except PyErr PyStr)
    (s : PyStr) (m : List (PyStr × DummyTask))
    (hc : a.configExists = true) (ho : a.output = .str s)
    (hpass : truthy a.output = true ∨ a.extension.map pyLower = [stdoutExt])
    (hm : parse_substitute_output a.substitute_output = .ok m) :
    (∀ e, chain = .error e →
      (mainSteps a chain).2 = .uncaught e ∧
      ((mainSteps a chain).1.filter isCleanupAction) = []) ∧
    (∀ v, chain = .ok v →
      (mainSteps a chain).2 = .finished ∧
      ((mainSteps a chain).1.filter isCleanupAction) =
        cleanupActions (pipelineTasks m) a.no_cleanup ∧
      ∃ pre, (mainSteps a chain).1 =
        pre ++ cleanupActions (pipelineTasks m) a.no_cleanup) ∧
    cleanupActions (pipelineTasks m) false =
      (pipelineTasks m).map (fun t => Act.cleanedTask t.name) ++ [Act.ranCleanFold] ∧
    cleanupActions (pipelineTasks m) true = [] := by
  have hcond : (!truthy a.output && !((a.extension.map pyLower) == [stdoutExt])) = false := by
    rcases hpass with h | h
    · rw [h]; rfl
    · rw [h]; simp
  have hnotbool : ∀ b, a.output ≠ .bool b := by
    rw [ho]; intro b hb; cases hb
  have hms : mainSteps a chain =
      afterOutput a chain (a.extension.map pyLower) (preActions a) :=
    (mainSteps_checks_pass a chain hc hcond).trans
      (mainAfterChecks_not_bool a chain hnotbool)
  refine ⟨?_, ?_, ?_, ?_⟩
  · intro e hce
    subst hce
    rw [hms, afterOutput_ok_error a _ _ m e hm]
    refine ⟨rfl, ?_⟩
    simp [List.filter_append, preActions_clean, stagesLog_clean, isCleanupAction]
  · intro v hcv
    subst hcv
    rw [hms, afterOutput_ok_ok a _ _ m v hm]
    refine ⟨rfl, ?_, ?_⟩
    · simp [List.filter_append, preActions_clean, stagesLog_clean,
        mirrorActions_clean, cleanupActions_filter, isCleanupAction]
    · refine ⟨preActions a ++ stagesLog m ++ [Act.ranChain] ++
        mirrorActions (a.extension.map pyLower), ?_⟩
      simp [List.append_assoc]
  · rw [cleanupActions, if_neg (by simp)]
  · rfl

/-- Witness for C5 at a concrete successful run. -/
theorem cleanup_exactly_on_success_witness :
    (mainSteps exArgsC5 (.ok "r".toList)).2 = .finished ∧
    ((mainSteps exArgsC5 (.ok "r".toList)).1.filter isCleanupAction) =
      cleanupActions (pipelineTasks []) false := by
  have h := cleanup_exactly_on_success exArgsC5 (.ok "r".toList) "out".toList []
    rfl rfl (Or.inl (by decide)) rfl
  obtain ⟨-, h2, -, -⟩ := h
  have h3 := h2 "r".toList rfl
  exact ⟨h3.1, h3.2.1⟩

example : walk [] exTree =
    [⟨["proc", "D", "E", "F"], [], []⟩,
     ⟨["proc", "D", "E"], ["F"], []⟩,
     ⟨["proc", "D"], ["E"], ["file.txt"]⟩,
     ⟨["proc"], ["D"], []⟩] := by
  decide

example : procRemoved exTree = false := by decide

example : removedDirs exTree = [["proc", "D", "E", "F"]] := by decide
